import Mathlib

/-!
Verification of the OQD compiler-infrastructure core: a shallow embedding of
`rewriter.py` (Chain, FixedPoint, Filter), `analysis.py` (AnalysisCache),
`match.py` (pattern matching and substitution) and `base.py` (PassBase cache
propagation), together with theorems settling the specification claims.

Models (IR nodes) are embedded as records carrying a kind chain (the Python
MRO restricted to class names) and an ordered list of named fields, plus
atomic integer leaves.
-/

namespace OQD

mutual
/-- An IR node: a record with a kind chain (most specific first) and ordered
named fields, or an atomic integer leaf (synthetic kind chain `["int"]`). -/
inductive Model where
  | record (kinds : List String) (fields : Fields)
  | atomInt (n : Int)
deriving DecidableEq, Repr

/-- The ordered named fields of a record node. -/
inductive Fields where
  | fnil
  | fcons (name : String) (value : Model) (rest : Fields)
deriving DecidableEq, Repr
end

/-- The kind chain (Python `__mro__` class names) of a node. -/
def Model.mro : Model → List String
  | .record kinds _ => kinds
  | .atomInt _ => ["int"]

/-- Field lookup, as Python `getattr(model, k)` on a record. -/
def Fields.lookup : Fields → String → Option Model
  | .fnil, _ => none
  | .fcons n v rest, k => if n = k then some v else rest.lookup k

/-- Python `getattr(model, k)`: field lookup on a record. -/
def Model.getattr : Model → String → Option Model
  | .record _ fields, k => fields.lookup k
  | .atomInt _, _ => none

/-! ### Concrete models used by the test corpus (tests/test_rewriters.py)

`MyInt(x)` is a record with one integer field, `MyAdd(left, right)` a record
of two children; both inherit from `MyMath`. -/

/-- The record `MyInt(x=n)` with kind chain MyInt <: MyMath. -/
def myInt (n : Int) : Model :=
  .record ["MyInt", "MyMath"] (.fcons "x" (.atomInt n) .fnil)

/-- The record `MyAdd(left=l, right=r)` with kind chain MyAdd <: MyMath. -/
def myAdd (l r : Model) : Model :=
  .record ["MyAdd", "MyMath"] (.fcons "left" l (.fcons "right" r .fnil))

/-- The model `MyAdd(MyInt(1), MyInt(2))` used throughout the test corpus. -/
def myModel : Model := myAdd (myInt 1) (myInt 2)

/-! ## rewriter.py: pass combinators

A deterministic pass is embedded as a function on models (its `__call__`).
The combinators below are transcribed from `Chain.map`, `FixedPoint.map` and
`Filter.filter` in src/oqd_compiler_infrastructure/rewriter.py. -/

section Rewriter

variable {M : Type} [DecidableEq M]

/-- Embedding of `Chain.map` (rewriter.py): the passes are applied
sequentially, the output of each becoming the input of the next. -/
def Chain.map (rules : List (M → M)) (model : M) : M :=
  rules.foldl (fun acc rule => rule acc) model

/-- The loop body of `FixedPoint.map` (rewriter.py).  The fuel argument is
`max_iter + 1 - i` for the Python loop counter `i`: each layer performs one
invocation of the rule; when the result equals the input, or the fuel is
down to its last unit (`i >= max_iter`), the *input* model is returned. -/
def FixedPoint.go (rule : M → M) : ℕ → M → M
  | 0, model => model
  | r + 1, model =>
      let next := rule model
      if next = model ∨ r = 0 then model
      else FixedPoint.go rule r next

/-- Embedding of `FixedPoint.map` (rewriter.py): iterate the rule until the
output equals the input by structural equality or `max_iter` is reached. -/
def FixedPoint.map (rule : M → M) (maxIter : ℕ) (model : M) : M :=
  FixedPoint.go rule (maxIter + 1) model

/-- `FixedPoint.go` instrumented with the number of rule invocations. -/
def FixedPoint.goCount (rule : M → M) : ℕ → M → M × ℕ
  | 0, model => (model, 0)
  | r + 1, model =>
      let next := rule model
      if next = model ∨ r = 0 then (model, 1)
      else
        let out := FixedPoint.goCount rule r next
        (out.1, out.2 + 1)

/-- `FixedPoint.map` instrumented with the number of rule invocations. -/
def FixedPoint.mapCount (rule : M → M) (maxIter : ℕ) (model : M) : M × ℕ :=
  FixedPoint.goCount rule (maxIter + 1) model

/-- Embedding of `Filter.filter` (rewriter.py): when the predicate rejects
the model it is returned unchanged, otherwise the wrapped pass is applied. -/
def Filter.filter (function : M → Bool) (rule : M → M) (model : M) : M :=
  if !(function model) then model else rule model

/-- `Filter.filter` instrumented with the number of rule invocations. -/
def Filter.filterCount (function : M → Bool) (rule : M → M) (model : M) :
    M × ℕ :=
  if !(function model) then (model, 0) else (rule model, 1)

/-! Helper lemmas about the fixed-point loop. -/

lemma FixedPoint.goCount_fst (rule : M → M) :
    ∀ (f : ℕ) (m : M), (FixedPoint.goCount rule f m).1 = FixedPoint.go rule f m := by
  intro f
  induction f with
  | zero => intro m; rfl
  | succ r ih =>
      intro m
      simp only [FixedPoint.goCount, FixedPoint.go]
      by_cases h : rule m = m ∨ r = 0
      · simp [h]
      · simp [h, ih]

lemma FixedPoint.goCount_le (rule : M → M) :
    ∀ (f : ℕ) (m : M), (FixedPoint.goCount rule f m).2 ≤ f := by
  intro f
  induction f with
  | zero => intro m; simp [FixedPoint.goCount]
  | succ r ih =>
      intro m
      simp only [FixedPoint.goCount]
      by_cases h : rule m = m ∨ r = 0
      · simp [h]
      · simpa [h] using Nat.succ_le_succ (ih (rule m))

lemma FixedPoint.go_fixed (rule : M → M) (f : ℕ) (m : M) (h : rule m = m) :
    FixedPoint.go rule (f + 1) m = m := by
  simp [FixedPoint.go, h]

/-- Either the loop's result is itself a fixed point of the rule, or the loop
ran out of fuel: the result is the input of the final invocation and every
unit of fuel was spent on one invocation. -/
lemma FixedPoint.go_disj (rule : M → M) :
    ∀ (f : ℕ) (m : M),
      rule (FixedPoint.go rule (f + 1) m) = FixedPoint.go rule (f + 1) m ∨
      (FixedPoint.go rule (f + 1) m = rule^[f] m ∧
        (FixedPoint.goCount rule (f + 1) m).2 = f + 1) := by
  intro f
  induction f with
  | zero =>
      intro m
      by_cases h : rule m = m
      · left; simpa [FixedPoint.go] using h
      · right; simp [FixedPoint.go, FixedPoint.goCount, h]
  | succ r ih =>
      intro m
      by_cases h : rule m = m
      · left
        have hgo : FixedPoint.go rule (r + 1 + 1) m = m := FixedPoint.go_fixed rule _ m h
        rw [hgo]; exact h
      · have hstep : FixedPoint.go rule (r + 1 + 1) m = FixedPoint.go rule (r + 1) (rule m) := by
          simp [FixedPoint.go, h]
        have hcnt : (FixedPoint.goCount rule (r + 1 + 1) m).2 =
            (FixedPoint.goCount rule (r + 1) (rule m)).2 + 1 := by
          simp [FixedPoint.goCount, h]
        rcases ih (rule m) with hfix | ⟨hval, hc⟩
        · left; rw [hstep]; exact hfix
        · right
          constructor
          · rw [hstep, hval, ← Function.iterate_succ_apply]
          · rw [hcnt, hc]

/-- If the i-th iterate is the first fixed point of the rule and there is
enough fuel to reach it, the loop returns it after exactly i+1 invocations. -/
lemma FixedPoint.go_first_fix (rule : M → M) :
    ∀ (i f : ℕ) (m : M), i + 1 ≤ f →
      rule (rule^[i] m) = rule^[i] m →
      (∀ j < i, rule (rule^[j] m) ≠ rule^[j] m) →
      FixedPoint.go rule f m = rule^[i] m ∧
        (FixedPoint.goCount rule f m).2 = i + 1 := by
  intro i
  induction i with
  | zero =>
      intro f m hf hfix _
      obtain ⟨r, rfl⟩ := Nat.exists_eq_add_of_le hf
      simp only [Function.iterate_zero, id] at hfix
      constructor
      · simpa [Nat.add_comm] using FixedPoint.go_fixed rule r m hfix
      · have : 1 + r = r + 1 := Nat.add_comm 1 r
        rw [this]
        simp [FixedPoint.goCount, hfix]
  | succ i ih =>
      intro f m hf hfix hfirst
      obtain ⟨r, rfl⟩ := Nat.exists_eq_add_of_le hf
      have hne : rule m ≠ m := by
        have := hfirst 0 (Nat.succ_pos i)
        simpa using this
      have hr0 : i + 1 + 1 + r = (i + r) + 1 + 1 := by omega
      rw [hr0]
      have hstep : FixedPoint.go rule ((i + r) + 1 + 1) m =
          FixedPoint.go rule ((i + r) + 1) (rule m) := by
        simp [FixedPoint.go, hne]
      have hcnt : (FixedPoint.goCount rule ((i + r) + 1 + 1) m).2 =
          (FixedPoint.goCount rule ((i + r) + 1) (rule m)).2 + 1 := by
        simp [FixedPoint.goCount, hne]
      have hfix' : rule (rule^[i] (rule m)) = rule^[i] (rule m) := by
        rw [← Function.iterate_succ_apply]; exact hfix
      have hfirst' : ∀ j < i, rule (rule^[j] (rule m)) ≠ rule^[j] (rule m) := by
        intro j hj
        rw [← Function.iterate_succ_apply]
        exact hfirst (j + 1) (Nat.succ_lt_succ hj)
      have hle : i + 1 ≤ (i + r) + 1 := by omega
      obtain ⟨hval, hc⟩ := ih ((i + r) + 1) (rule m) hle hfix' hfirst'
      constructor
      · rw [hstep, hval, ← Function.iterate_succ_apply]
      · rw [hcnt, hc]

end Rewriter

/-- A pass that increments an atomic integer and fixes every other node:
it has no fixed point on atomic integers. -/
def succPass : Model → Model
  | .atomInt n => .atomInt (n + 1)
  | m => m

/-- A pass that collapses every model to the atom `0`. -/
def zeroPass : Model → Model := fun _ => .atomInt 0

/-- Predicate selecting records whose kind chain contains MyAdd, as the
Python `lambda n: isinstance(n, MyAdd)`. -/
def isMyAdd : Model → Bool := fun m => m.mro.contains "MyAdd"

/-! ## Claim theorems about the pass combinators -/

set_option maxRecDepth 100000

/-- C2 (counterexample): applying FixedPoint(p) a second time to its own
output changes the result when the first run stopped because max_iter was
reached: with p the successor pass on atoms and max_iter=1, the first run
yields the atom 1 but re-running yields the atom 2, and the same failure
occurs at the default max_iter=1000. -/
theorem fixedPoint_reapplication_changes_output_at_max_iter :
    (FixedPoint.map succPass 1 (Model.atomInt 0) = Model.atomInt 1 ∧
      FixedPoint.map succPass 1 (FixedPoint.map succPass 1 (Model.atomInt 0)) =
        Model.atomInt 2 ∧
      FixedPoint.map succPass 1 (FixedPoint.map succPass 1 (Model.atomInt 0)) ≠
        FixedPoint.map succPass 1 (Model.atomInt 0)) ∧
    FixedPoint.map succPass 1000 (FixedPoint.map succPass 1000 (Model.atomInt 0)) ≠
      FixedPoint.map succPass 1000 (Model.atomInt 0) := by decide

/-- C2 (amended): FixedPoint(p)(n) equals FixedPoint(p)(FixedPoint(p)(n))
whenever the first run's output is itself a fixed point of p — in
particular whenever the run stopped because a fixed point was found rather
than because max_iter was reached. -/
theorem fixedPoint_idempotent_once_fixed_point_reached :
    ∀ (rule : Model → Model) (k : ℕ) (n : Model),
      rule (FixedPoint.map rule k n) = FixedPoint.map rule k n →
      FixedPoint.map rule k (FixedPoint.map rule k n) = FixedPoint.map rule k n :=
  fun rule k _ h => FixedPoint.go_fixed rule k _ h

/-- Witness for the amended C2 at the collapsing pass on the atom 3. -/
theorem fixedPoint_idempotent_once_fixed_point_reached_witness :
    FixedPoint.map zeroPass 1 (FixedPoint.map zeroPass 1 (Model.atomInt 3)) =
      FixedPoint.map zeroPass 1 (Model.atomInt 3) :=
  fixedPoint_idempotent_once_fixed_point_reached zeroPass 1 (Model.atomInt 3) (by decide)

/-- C3: FixedPoint(p, max_iter=k).map(n) performs at most k+1 invocations of
p, agrees with the instrumented run, and returns the first model m in the
sequence n, p(n), p(p(n)), ... with p(m) = m whenever that model is reached
within the iteration bound (first fixed index i ≤ k), using exactly i+1
invocations. -/
theorem fixedPoint_terminates_within_bound_and_returns_first_fixed_point :
    ∀ (rule : Model → Model) (k : ℕ) (n : Model),
      (FixedPoint.mapCount rule k n).2 ≤ k + 1 ∧
      (FixedPoint.mapCount rule k n).1 = FixedPoint.map rule k n ∧
      (∀ i ≤ k, rule (rule^[i] n) = rule^[i] n →
        (∀ j < i, rule (rule^[j] n) ≠ rule^[j] n) →
        FixedPoint.map rule k n = rule^[i] n ∧
          (FixedPoint.mapCount rule k n).2 = i + 1) :=
  fun rule k n =>
    ⟨FixedPoint.goCount_le rule (k + 1) n,
     FixedPoint.goCount_fst rule (k + 1) n,
     fun i hik hfix hfirst =>
       FixedPoint.go_first_fix rule i (k + 1) n (by omega) hfix hfirst⟩

/-- Witness for C3 at the collapsing pass, max_iter 0, on the atom 0. -/
theorem fixedPoint_terminates_within_bound_witness :
    (FixedPoint.mapCount zeroPass 0 (Model.atomInt 0)).2 ≤ 1 ∧
    FixedPoint.map zeroPass 0 (Model.atomInt 0) = zeroPass^[0] (Model.atomInt 0) ∧
    (FixedPoint.mapCount zeroPass 0 (Model.atomInt 0)).2 = 0 + 1 := by
  obtain ⟨h1, _, h3⟩ :=
    fixedPoint_terminates_within_bound_and_returns_first_fixed_point zeroPass 0 (Model.atomInt 0)
  obtain ⟨hv, hc⟩ := h3 0 (Nat.le_refl 0) (by decide)
    (fun j hj => absurd hj (Nat.not_lt_zero j))
  exact ⟨h1, hv, hc⟩

/-- C4: Filter(f, p) consults the predicate once at the top level: when it
rejects the model, the model is returned unchanged and the wrapped pass is
never invoked; when it accepts, the result is exactly the wrapped pass
applied to the whole model, invoked once. -/
theorem filter_applies_rule_only_when_predicate_holds :
    ∀ (function : Model → Bool) (rule : Model → Model) (model : Model),
      (function model = false →
        Filter.filter function rule model = model ∧
        Filter.filterCount function rule model = (model, 0)) ∧
      (function model = true →
        Filter.filter function rule model = rule model ∧
        Filter.filterCount function rule model = (rule model, 1)) := by
  intro f p m
  constructor
  · intro h
    constructor
    · simp [Filter.filter, h]
    · simp [Filter.filterCount, h]
  · intro h
    constructor
    · simp [Filter.filter, h]
    · simp [Filter.filterCount, h]

/-- Witness for C4: the isinstance-MyAdd predicate rejects MyInt(5), which is
returned untouched with zero rule invocations, and accepts
MyAdd(MyInt(1), MyInt(2)), on which the rule is invoked once. -/
theorem filter_applies_rule_only_when_predicate_holds_witness :
    (Filter.filter isMyAdd zeroPass (myInt 5) = myInt 5 ∧
      Filter.filterCount isMyAdd zeroPass (myInt 5) = (myInt 5, 0)) ∧
    (Filter.filter isMyAdd zeroPass myModel = zeroPass myModel ∧
      Filter.filterCount isMyAdd zeroPass myModel = (zeroPass myModel, 1)) :=
  ⟨(filter_applies_rule_only_when_predicate_holds isMyAdd zeroPass (myInt 5)).1 (by decide),
   (filter_applies_rule_only_when_predicate_holds isMyAdd zeroPass myModel).2 (by decide)⟩

/-- C5: Chain applies its passes sequentially in construction order — the
empty chain is the identity, a chain starting with p feeds p's output to the
rest, composition splits over append, and the last pass is applied
outermost. -/
theorem chain_applies_passes_sequentially_in_order :
    ∀ (p : Model → Model) (ps qs : List (Model → Model)) (m : Model),
      Chain.map ([] : List (Model → Model)) m = m ∧
      Chain.map (p :: ps) m = Chain.map ps (p m) ∧
      Chain.map (ps ++ qs) m = Chain.map qs (Chain.map ps m) ∧
      Chain.map (ps ++ [p]) m = p (Chain.map ps m) := by
  intro p ps qs m
  refine ⟨rfl, rfl, ?_, ?_⟩
  · simp [Chain.map, List.foldl_append]
  · simp [Chain.map, List.foldl_append]

/-- C10: FixedPoint(p, max_iter=0)(n) returns n with exactly one invocation
of p (its output is discarded); in general, whenever the run stops with an
output that is not a fixed point (the bound was reached), the result is the
k-th iterate — the model fed into the final, (k+1)-th, application — and
that final application's output is discarded. -/
theorem fixedPoint_max_iter_reached_discards_final_application :
    ∀ (rule : Model → Model) (n : Model),
      (FixedPoint.map rule 0 n = n ∧ (FixedPoint.mapCount rule 0 n).2 = 1) ∧
      (∀ k : ℕ, rule (FixedPoint.map rule k n) ≠ FixedPoint.map rule k n →
        FixedPoint.map rule k n = rule^[k] n ∧
          (FixedPoint.mapCount rule k n).2 = k + 1) := by
  intro rule n
  constructor
  · constructor
    · simp [FixedPoint.map, FixedPoint.go]
    · simp [FixedPoint.mapCount, FixedPoint.goCount]
  · intro k hne
    rcases FixedPoint.go_disj rule k n with h | h
    · exact absurd h hne
    · exact h

/-- Witness for C10 at the successor pass: with max_iter 0 the atom 0 is
returned unchanged after one invocation, and with max_iter 1 the returned
atom 1 is the input of the discarded second application. -/
theorem fixedPoint_max_iter_reached_discards_final_application_witness :
    (FixedPoint.map succPass 0 (Model.atomInt 0) = Model.atomInt 0 ∧
      (FixedPoint.mapCount succPass 0 (Model.atomInt 0)).2 = 1) ∧
    (FixedPoint.map succPass 1 (Model.atomInt 0) = succPass^[1] (Model.atomInt 0) ∧
      (FixedPoint.mapCount succPass 1 (Model.atomInt 0)).2 = 1 + 1) :=
  ⟨(fixedPoint_max_iter_reached_discards_final_application succPass (Model.atomInt 0)).1,
   (fixedPoint_max_iter_reached_discards_final_application succPass (Model.atomInt 0)).2 1
     (by decide)⟩

/-! ## analysis.py: the analysis cache -/

/-- An entry of the analysis cache (analysis.py `AnalysisResult`): an
analysis name, a validity flag and the analysis data, an opaque mapping
embedded as ordered string-integer pairs. -/
structure AnalysisResult where
  name : String
  valid : Bool
  data : List (String × Int)
deriving DecidableEq, Repr

/-- Embedding of `AnalysisCache.__getitem__` (analysis.py): every entry with
the given name, valid and stale alike, in store order. -/
def AnalysisCache.getByName (store : List AnalysisResult) (idx : String) :
    List AnalysisResult :=
  store.filter (fun entry => entry.name = idx)

/-- Embedding of `AnalysisCache.invalidate` (analysis.py): set valid=False,
in place, on every currently-valid entry whose name is the given name. -/
def AnalysisCache.invalidate (store : List AnalysisResult) (name : String) :
    List AnalysisResult :=
  store.map (fun entry =>
    if entry.name = name ∧ entry.valid then { entry with valid := false } else entry)

/-- Embedding of `AnalysisCache.append` (analysis.py). -/
def AnalysisCache.append (store : List AnalysisResult) (entry : AnalysisResult) :
    List AnalysisResult :=
  store ++ [entry]

/-- C6: invalidate(s) leaves a store of the same length in the same order in
which, position by position, names and data are unchanged, every entry
named s is invalid, entries with a different name are untouched, and
already-stale entries are untouched entirely. -/
theorem invalidate_marks_exactly_the_matching_valid_entries :
    ∀ (store : List AnalysisResult) (s : String),
      (AnalysisCache.invalidate store s).length = store.length ∧
      List.Forall₂ (fun e e' : AnalysisResult =>
          e'.name = e.name ∧ e'.data = e.data ∧
          (e.name = s → e'.valid = false) ∧
          (e.name ≠ s → e' = e) ∧
          (e.valid = false → e' = e))
        store (AnalysisCache.invalidate store s) := by
  intro store s
  refine ⟨by simp [AnalysisCache.invalidate], ?_⟩
  induction store with
  | nil => simp [AnalysisCache.invalidate]
  | cons e rest ih =>
      simp only [AnalysisCache.invalidate, List.map_cons] at ih ⊢
      refine List.Forall₂.cons ?_ ih
      by_cases h1 : e.name = s <;> by_cases h2 : e.valid = true <;>
        simp [h1, h2]

/-! ## Spec-modelled analysis walk

The repository imports walk.py and rule.py, but those files are absent from
the sources; the walker and analysis-rule behavior below is modelled from
the spec (traversal orders in section 4.3, requirements and staleness in
section 4.5, scenarios 3 and 4 in section 8). -/

mutual
/-- Modelled from the spec: the Post-order visit sequence of the absent
walk.py — children left-to-right recursively, then the node itself; atoms
are visited as leaves. -/
def Model.postVisits : Model → List Model
  | .record kinds fields => Fields.postVisits fields ++ [.record kinds fields]
  | .atomInt n => [.atomInt n]

/-- Modelled from the spec: Post-order visits of a record's fields in
declaration order. -/
def Fields.postVisits : Fields → List Model
  | .fnil => []
  | .fcons _ v rest => Model.postVisits v ++ Fields.postVisits rest
end

/-- Modelled from the spec: the CountTerms analysis rule of the test corpus
run under a Post walk (rule.py dispatch is absent from the sources): its
only handler map_MyInt fires on every visited node whose kind chain
contains MyInt, incrementing N_terms. -/
def countTerms (model : Model) : Int :=
  ((Model.postVisits model).countP (fun n => n.mro.contains "MyInt") : ℕ)

/-- Modelled from the spec: one run of an analysis of a given name over a
shared cache — previously-valid entries of that name are marked stale and a
fresh valid entry holding the rule's analysis_data is appended (spec
section 4.5; scenarios 3 and 4 of section 8). -/
def runAnalysis (store : List AnalysisResult) (name : String)
    (data : List (String × Int)) : List AnalysisResult :=
  AnalysisCache.append (AnalysisCache.invalidate store name)
    { name := name, valid := true, data := data }

/-- Modelled from the spec: the pass Post(CountTerms()) as a function on a
model paired with the shared analysis cache — an analysis walk returns the
model unchanged (spec section 4.3) and records its result in the cache. -/
def postCountTerms (state : Model × List AnalysisResult) :
    Model × List AnalysisResult :=
  (state.1, runAnalysis state.2 "CountTerms" [("N_terms", countTerms state.1)])

/-- C9: Chain(Post(CountTerms), Post(CountTerms)) on MyAdd(MyInt(1),
MyInt(2)) leaves the shared cache with exactly two CountTerms entries in
order — the first run's entry marked stale (not removed) by the second run
and the second run's entry valid — both with data N_terms=2 — while the
model is returned unchanged. -/
theorem repeat_analysis_pass_keeps_stale_history :
    Chain.map [postCountTerms, postCountTerms]
        (myModel, ([] : List AnalysisResult)) =
      (myModel,
        [{ name := "CountTerms", valid := false, data := [("N_terms", 2)] },
         { name := "CountTerms", valid := true, data := [("N_terms", 2)] }]) := by
  decide

/-! ## Cache identity: base.py `PassBase.before_call` and the FixedPoint
clones of rewriter.py

Python cache objects live on a heap; object identity is modelled by the
allocation id.  `PassBase.before_call` allocates a fresh `AnalysisCache`
when none is attached and assigns its own cache reference to every current
child; `FixedPoint.rule` deep-copies `_rule` — a deepcopy duplicates an
attached cache into a fresh allocation and keeps an absent cache absent. -/

/-- A heap of AnalysisCache objects: the allocation counter and each
allocated cache's store, indexed by allocation id. -/
structure CacheHeap where
  next : ℕ
  stores : List (ℕ × List AnalysisResult)
deriving DecidableEq, Repr

/-- Allocate a fresh, empty AnalysisCache and return its id. -/
def CacheHeap.alloc (h : CacheHeap) : ℕ × CacheHeap :=
  (h.next, { next := h.next + 1, stores := h.stores ++ [(h.next, [])] })

/-- The store of the cache at an allocation id. -/
def CacheHeap.get (h : CacheHeap) (i : ℕ) : Option (List AnalysisResult) :=
  h.stores.lookup i

/-- Overwrite the store of the cache at an allocation id. -/
def CacheHeap.set (h : CacheHeap) (i : ℕ) (s : List AnalysisResult) : CacheHeap :=
  { h with stores := h.stores.map (fun p => if p.1 = i then (i, s) else p) }

/-- The mutable state of the inner pass Post(CountTerms()): its
_analysis_cache attribute, a cache reference (allocation id) or None. -/
structure InnerPass where
  cache : Option ℕ
deriving DecidableEq, Repr

/-- Invoking the inner analysis pass on a model: `PassBase.__call__` of
base.py — before_call attaches a freshly created cache when none is
attached — followed by the walk, which records the CountTerms result in the
attached cache (the analysis effect is modelled from the spec, the absent
rule.py) and returns the model unchanged. -/
def InnerPass.invoke (p : InnerPass) (h : CacheHeap) (model : Model) :
    InnerPass × CacheHeap × Model :=
  let alloc :=
    match p.cache with
    | some cid => (cid, h)
    | none => CacheHeap.alloc h
  let cid := alloc.1
  let h1 := alloc.2
  let store := (h1.get cid).getD []
  let h2 := h1.set cid (runAnalysis store "CountTerms" [("N_terms", countTerms model)])
  ({ cache := some cid }, h2, model)

/-- deepcopy of the inner pass (the `FixedPoint.rule` property of
rewriter.py with reuse=False): a deepcopy duplicates an attached cache into
a fresh allocation holding a copy of its store; an absent cache stays
absent. -/
def InnerPass.deepcopy (p : InnerPass) (h : CacheHeap) : InnerPass × CacheHeap :=
  match p.cache with
  | none => ({ cache := none }, h)
  | some cid =>
      let alloc := CacheHeap.alloc h
      ({ cache := some alloc.1 },
        alloc.2.set alloc.1 ((h.get cid).getD []))

/-- The mutable state of a FixedPoint(pass, reuse=False) object: its own
_analysis_cache, the wrapped _rule, and _rule_copies (rewriter.py). -/
structure FixedPointState where
  cache : Option ℕ
  rule : InnerPass
  copies : List InnerPass
deriving DecidableEq, Repr

/-- `PassBase.before_call` (base.py) for the FixedPoint object: create a
cache if none is attached, then assign it to every current child — with
reuse=False the children are the copies made so far (rewriter.py). -/
def FixedPointState.beforeCall (st : FixedPointState) (h : CacheHeap) :
    FixedPointState × CacheHeap :=
  let alloc :=
    match st.cache with
    | some cid => (cid, h)
    | none => CacheHeap.alloc h
  ({ st with
      cache := some alloc.1,
      copies := st.copies.map (fun _ => { cache := some alloc.1 }) },
    alloc.2)

/-- The `while True` loop of `FixedPoint.map` (rewriter.py): each iteration
the rule property deep-copies _rule, appends the clone to _rule_copies and
invokes it; the loop stops when the output equals the input or the
iteration bound is reached.  Fuel is max_iter + 1 - i as in FixedPoint.go. -/
def FixedPointState.mapLoop (fuel : ℕ) (st : FixedPointState) (h : CacheHeap)
    (model : Model) : FixedPointState × CacheHeap × Model :=
  match fuel with
  | 0 => (st, h, model)
  | f + 1 =>
      let copied := st.rule.deepcopy h
      let invoked := copied.1.invoke copied.2 model
      let st1 := { st with copies := st.copies ++ [invoked.1] }
      let next := invoked.2.2
      if next = model ∨ f = 0 then (st1, invoked.2.1, model)
      else FixedPointState.mapLoop f st1 invoked.2.1 next

/-- `PassBase.__call__` for the FixedPoint object: before_call, then the
iteration loop (after_call is a no-op in base.py). -/
def FixedPointState.call (st : FixedPointState) (maxIter : ℕ) (h : CacheHeap)
    (model : Model) : FixedPointState × CacheHeap × Model :=
  let pre := st.beforeCall h
  FixedPointState.mapLoop (maxIter + 1) pre.1 pre.2 model

/-- The scenario of tests/test_analysis.py test_fixed_point_shared_analysis_cache
and test_fixed_point_analysis_pass: a freshly constructed
FixedPoint(Post(CountTerms())) — default max_iter=1000, reuse=False —
invoked once on MyAdd(MyInt(1), MyInt(2)) starting from an empty heap. -/
def fixedPointScenario : FixedPointState × CacheHeap × Model :=
  FixedPointState.call
    { cache := none, rule := { cache := none }, copies := [] } 1000
    { next := 0, stores := [] } myModel

/-- C1 (refutation, code bug): after one invocation of the FixedPoint pass,
its own cache is allocation 0 while its single child clone holds allocation
1 — a different object, so the descendants do not hold the very same
analysis_cache reference; the two caches are not even structurally equal
(the root's is empty, the clone's holds the CountTerms entry), contrary to
the repository's own tests. -/
theorem fixedPoint_clone_holds_distinct_fresh_cache :
    fixedPointScenario.1.cache = some 0 ∧
    fixedPointScenario.1.copies = [{ cache := some 1 }] ∧
    (∀ c ∈ fixedPointScenario.1.copies, c.cache ≠ fixedPointScenario.1.cache) ∧
    fixedPointScenario.2.1.get 0 = some [] ∧
    fixedPointScenario.2.1.get 1 =
      some [{ name := "CountTerms", valid := true, data := [("N_terms", 2)] }] := by
  decide

/-! ## match.py: the pattern-matching convenience layer -/

/-- The typed errors match.py raises (TypeError, AttributeError, KeyError,
ValueError, IndexError). -/
inductive MatchErr where
  | typeError (msg : String)
  | attributeError
  | keyError
  | valueError (msg : String)
  | indexError
deriving DecidableEq, Repr

/-- The function position of a pattern call expression: a plain name as
rendered by ast.unparse, or the subscript Union[K1, ..., Kn]. -/
inductive PatFunc where
  | name (id : String)
  | unionSub (names : List String)
deriving DecidableEq, Repr

/-- The fragment of the Python AST the pattern engine manipulates: module
and expression wrappers, call expressions with positional and keyword
arguments, bare names, the literal ellipsis, and constants or containers
the engine does not support (integer literals, list displays). -/
inductive Ast where
  | module (body : List Ast)
  | expr (value : Ast)
  | call (func : PatFunc) (args : List Ast) (keywords : List (String × Ast))
  | name (id : String)
  | ellipsisLit
  | intLit (n : Int)
  | listLit (elts : List Ast)

/-- Embedding of `_reduce_pattern` (match.py): unwrap Module and Expr
wrappers until a Call is reached; any other form raises TypeError (an empty
module body raises IndexError from `body[0]`). -/
def reducePattern : Ast → Except MatchErr Ast
  | .call f args kws => .ok (.call f args kws)
  | .module [] => .error .indexError
  | .module (b :: _) => reducePattern b
  | .expr v => reducePattern v
  | .name _ => .error (.typeError "Unsupported AST pattern")
  | .ellipsisLit => .error (.typeError "Unsupported AST pattern")
  | .intLit _ => .error (.typeError "Unsupported AST pattern")
  | .listLit _ => .error (.typeError "Unsupported AST pattern")

/-- The pattern setter is the identity on call expressions. -/
lemma reducePattern_call (f : PatFunc) (args : List Ast)
    (kws : List (String × Ast)) :
    reducePattern (.call f args kws) = .ok (.call f args kws) := rfl

/-- The pattern setter raises TypeError on a bare name. -/
lemma reducePattern_name (id : String) :
    reducePattern (.name id) = .error (.typeError "Unsupported AST pattern") := rfl

/-- The node_names computation of match.py generic_map: the names against
which the model's kind chain is intersected. -/
def PatFunc.nodeNames : PatFunc → List String
  | .name s => [s]
  | .unionSub ns => ns

/-- Non-empty intersection of the pattern's names with the model's mro. -/
def kindsIntersect (names mro : List String) : Bool :=
  names.any (fun s => mro.contains s)

/-- A match outcome (match.py MatchResult): a flag and, when matching, the
bound variables in binding order (the source field is named variables, a
reserved word here). -/
structure MatchResult where
  state : Bool
  vars : Option (List (String × Model))
deriving DecidableEq, Repr

/-- Python dict update: existing keys are overwritten in place, new keys
appended in insertion order. -/
def updateVar (vars : List (String × Model)) (key : String) (v : Model) :
    List (String × Model) :=
  if vars.any (fun p => p.1 = key) then
    vars.map (fun p => if p.1 = key then (key, v) else p)
  else vars ++ [(key, v)]

/-- The `dict(**a, **b)` of MatchResult.add: duplicate keys raise a
TypeError, otherwise the mappings are concatenated. -/
def mergeVars (a b : List (String × Model)) :
    Except MatchErr (List (String × Model)) :=
  if b.any (fun p => a.any (fun q => q.1 = p.1)) then
    .error (.typeError "multiple values for keyword argument")
  else .ok (a ++ b)

/-- getattr with AttributeError on a missing field. -/
def getattrE (model : Model) (k : String) : Except MatchErr Model :=
  match model.getattr k with
  | some v => .ok v
  | none => .error .attributeError

/-- The positional-argument loop of _MatchPattern.generic_map: every arg
must be a bare name and binds the whole model to it; anything else raises
TypeError. -/
def matchArgs (model : Model) (vars : List (String × Model)) :
    List Ast → Except MatchErr (List (String × Model))
  | [] => .ok vars
  | .name id :: rest => matchArgs model (updateVar vars id model) rest
  | _ :: _ => .error (.typeError "Unsupported type when matching args")

mutual
/-- Embedding of _MatchPattern applied to a model (match.py generic_map;
the rule-invocation plumbing of the absent rule.py funnels every node into
generic_map, since _MatchPattern declares no per-kind handlers and its
container handlers delegate to generic_map): when the pattern's names
intersect the model's kind chain, positional args bind the whole model and
keyword subpatterns are processed in order; otherwise the match fails with
no bindings. -/
def matchCall : Ast → Model → Except MatchErr MatchResult
  | .call f args kws, model =>
      if kindsIntersect f.nodeNames model.mro then do
        let vars ← matchArgs model [] args
        let st ← matchKeywords model kws true vars
        pure { state := st.1, vars := some st.2 }
      else
        pure { state := false, vars := none }
  | _, _ => .error .attributeError

/-- The keyword loop of _MatchPattern.generic_map, threading the mutated
MatchResult (state flag and variables): a Call subpattern is matched
recursively against the field (the pattern setter is the identity on
calls, see reducePattern_call) and combined by MatchResult.add; a literal
ellipsis is skipped; a bare name binds the field's value; anything else
raises TypeError. -/
def matchKeywords (model : Model) :
    List (String × Ast) → Bool → List (String × Model) →
      Except MatchErr (Bool × List (String × Model))
  | [], st, vars => .ok (st, vars)
  | (k, v) :: rest, st, vars =>
      match v with
      | .call f a kw => do
          let attr ← getattrE model k
          let sub ← matchCall (.call f a kw) attr
          if st && sub.state then do
            let merged ← mergeVars vars (sub.vars.getD [])
            matchKeywords model rest true merged
          else
            matchKeywords model rest false vars
      | .ellipsisLit => matchKeywords model rest st vars
      | .name id => do
          let attr ← getattrE model k
          matchKeywords model rest st (updateVar vars id attr)
      | _ => .error (.typeError "Unsupported type when matching keywords")
end

/-- Write a field of a record in place (`setattr` on the deep copy in
_MatchSubstitute.generic_map; the field always exists there, having been
read by getattr first). -/
def Fields.setattr : Fields → String → Model → Fields
  | .fnil, _, _ => .fnil
  | .fcons n v rest, k, nv =>
      if n = k then .fcons n nv rest else .fcons n v (rest.setattr k nv)

/-- setattr on a model; atoms have no fields and are never written to by
the engine. -/
def Model.setattr : Model → String → Model → Model
  | .record kinds fields, k, v => .record kinds (fields.setattr k v)
  | .atomInt n, _, _ => .atomInt n

mutual
/-- Embedding of _MatchSubstitute applied to a model (match.py
generic_map): when the pattern's names intersect the model's kind chain, a
bare-name first positional argument returns its substitution (KeyError if
unbound), any other positional argument raises TypeError, and otherwise
the keywords are substituted into a deep copy of the model; when the names
do not intersect, ValueError is raised. -/
def substituteGo (subs : List (String × Model)) :
    Ast → Model → Except MatchErr Model
  | .call f args kws, model =>
      if kindsIntersect f.nodeNames model.mro then
        match args with
        | .name id :: _ =>
            match subs.lookup id with
            | some v => .ok v
            | none => .error .keyError
        | _ :: _ => .error (.typeError "Unsupported type when matching args")
        | [] => substituteKeywords subs kws model model
      else .error (.valueError "Pattern does not match model")
  | _, _ => .error .attributeError

/-- The keyword loop of _MatchSubstitute.generic_map; reads come from the
original model, writes go to the deep copy.  For a Call or bare-Name
subpattern the code first runs the pattern setter: on a Call it is the
identity (reducePattern_call) and the engine recurses on the field; on a
bare Name _reduce_pattern raises TypeError before anything else runs
(reducePattern_name checks this inlining).  A literal ellipsis is skipped;
anything else raises TypeError. -/
def substituteKeywords (subs : List (String × Model)) :
    List (String × Ast) → Model → Model → Except MatchErr Model
  | [], _, newModel => .ok newModel
  | (k, v) :: rest, model, newModel =>
      match v with
      | .call f a kw => do
          let attr ← getattrE model k
          let sub ← substituteGo subs (.call f a kw) attr
          substituteKeywords subs rest model (newModel.setattr k sub)
      | .name _ => .error (.typeError "Unsupported AST pattern")
      | .ellipsisLit => substituteKeywords subs rest model newModel
      | _ => .error (.typeError "Unsupported type when matching keywords")
end

/-- Embedding of `Match.match` (match.py): compile the raw pattern (the
_MatchPattern constructor's pattern setter), match it against the model; on
no match return the model unchanged without touching the wrapped rule; on a
match apply the rule to each bound variable's value and run the
substitution (whose _MatchSubstitute constructor compiles the raw pattern
again). -/
def Match.matchModel (pattern : Ast) (rule : Model → Model) (model : Model) :
    Except MatchErr Model := do
  let reduced ← reducePattern pattern
  let mr ← matchCall reduced model
  if mr.state then do
    let subs := (mr.vars.getD []).map (fun p => (p.1, rule p.2))
    let reduced2 ← reducePattern pattern
    substituteGo subs reduced2 model
  else
    pure model

/-- A pattern whose top level compiles (it is a call) but whose keyword
subpattern is an unsupported integer literal: `MyAdd(left=5)`. -/
def badKeywordPattern : Ast := .call (.name "MyAdd") [] [("left", .intLit 5)]

/-- A pattern with a bare-name keyword binding: `MyAdd(left=a)`. -/
def bareNameKeywordPattern : Ast := .call (.name "MyAdd") [] [("left", .name "a")]

/-- C7 (counterexample): the pattern MyAdd(left=5) contains an unsupported
construct (an integer-literal keyword subpattern), yet it compiles without
error; the typed error is raised only while matching it against a model
whose kind chain matches, refuting that unsupported constructs surface at
pattern compile time and that matching a compiled pattern never raises. -/
theorem compiled_pattern_raises_unsupported_error_at_match_time :
    reducePattern badKeywordPattern = .ok badKeywordPattern ∧
    matchCall badKeywordPattern myModel =
      .error (.typeError "Unsupported type when matching keywords") :=
  ⟨rfl, rfl⟩

/-- C7 (amended): pattern compilation (_reduce_pattern) yields a call
expression or raises a typed error — in particular a bare-name top-level
form raises TypeError at compile time — while unsupported argument or
keyword subpattern forms raise their typed error only at match time, when
the pattern is applied to a model whose kind chain matches. -/
theorem unsupported_toplevel_fails_at_compile_time_keywords_at_match_time :
    (∀ (a r : Ast), reducePattern a = .ok r →
      ∃ f args kws, r = Ast.call f args kws) ∧
    reducePattern (Ast.name "x") = .error (.typeError "Unsupported AST pattern") ∧
    matchCall badKeywordPattern myModel =
      .error (.typeError "Unsupported type when matching keywords") := by
  refine ⟨?_, rfl, rfl⟩
  intro a
  induction a using reducePattern.induct with
  | case1 f args kws => intro r hr; exact ⟨f, args, kws, by simpa [reducePattern] using hr.symm⟩
  | case2 => intro r hr; simp [reducePattern] at hr
  | case3 b rest ih => intro r hr; exact ih r (by simpa [reducePattern] using hr)
  | case4 v ih => intro r hr; exact ih r (by simpa [reducePattern] using hr)
  | case5 id => intro r hr; simp [reducePattern] at hr
  | case6 => intro r hr; simp [reducePattern] at hr
  | case7 n => intro r hr; simp [reducePattern] at hr
  | case8 elts => intro r hr; simp [reducePattern] at hr

/-- Witness for the amended C7: unwrapping an Expr wrapper around a call
compiles to that call. -/
theorem unsupported_toplevel_fails_at_compile_time_witness :
    ∃ f args kws,
      Ast.call (PatFunc.name "K") [] [] = Ast.call f args kws :=
  unsupported_toplevel_fails_at_compile_time_keywords_at_match_time.1
    (Ast.expr (Ast.call (PatFunc.name "K") [] []))
    (Ast.call (PatFunc.name "K") [] []) rfl

/-- C8 (code bug): the pattern MyAdd(left=a) matches MyAdd(MyInt(1),
MyInt(2)) binding a to the left sub-node, and a non-matching model is
returned unchanged with the wrapped rule never consulted; but instead of
substituting the transformed binding back, Match raises TypeError from the
pattern setter of _MatchSubstitute, which rejects the bare-name keyword
its own branch condition admits. -/
theorem match_bare_name_substitution_raises_type_error :
    matchCall bareNameKeywordPattern myModel =
      .ok { state := true, vars := some [("a", myInt 1)] } ∧
    (∀ rule : Model → Model,
      Match.matchModel bareNameKeywordPattern rule (myInt 5) = .ok (myInt 5)) ∧
    Match.matchModel bareNameKeywordPattern (fun m => m) myModel =
      .error (.typeError "Unsupported AST pattern") :=
  ⟨rfl, fun _ => rfl, rfl⟩

end OQD
